import Mathlib

/-!
Verification of the PassionDSA single-page widget (src/passion-dsa/src/App.tsx).

The embedding translates the TypeScript source directly:
* the closed enumerations `INTERESTS` and `CONCEPTS` become inductive types;
* the pure lookup `generateExplanation` becomes a Lean function returning
  an `Explanation` record, with the exact template strings of the source;
* the React component state (`interest`, `concept`, `stack`, `queue`) becomes
  the structure `AppState`, and each button's `onClick` handler becomes one
  constructor of `Event`, interpreted by the transition function `step`.
-/

namespace PassionDSA

/-- The six interests of `INTERESTS` in App.tsx. -/
inductive Interest where
  | Dance | Poetry | Cooking | Sports | Gaming | Music
  deriving DecidableEq, Repr

/-- The six concepts of `CONCEPTS` in App.tsx ("Hash Map", "Binary Search"
spelled without the space). -/
inductive Concept where
  | Stack | Queue | HashMap | BinarySearch | Recursion | Graph
  deriving DecidableEq, Repr

/-- The flavor record looked up at the top of `generateExplanation`. -/
structure Flavor where
  item : String
  place : String
  group : String
  deriving DecidableEq, Repr

/-- The flavor table of `generateExplanation` in App.tsx. -/
def flavorOf : Interest → Flavor
  | .Dance => ⟨"move", "routine", "dancers"⟩
  | .Poetry => ⟨"line", "stanza", "poems"⟩
  | .Cooking => ⟨"step", "recipe", "ingredients"⟩
  | .Sports => ⟨"play", "playbook", "players"⟩
  | .Gaming => ⟨"action", "combo", "NPCs"⟩
  | .Music => ⟨"bar", "setlist", "musicians"⟩

/-- The record returned by `generateExplanation`. -/
structure Explanation where
  analogy : String
  steps : List String
  code : String
  deriving DecidableEq, Repr

/-- Direct translation of `generateExplanation` from App.tsx: look up the
flavor for the interest, then dispatch on the concept to one of six fixed
templates, interpolating the flavor nouns. -/
def generateExplanation (interest : Interest) (concept : Concept) : Explanation :=
  let flavor := flavorOf interest
  match concept with
  | .Stack =>
    { analogy :=
        "A Stack is like building a " ++ flavor.place ++ ": you add each " ++
        flavor.item ++ " on top. " ++
        "When you undo, the last " ++ flavor.item ++ " you added comes off first (LIFO).",
      steps := [
        "Push: add a " ++ flavor.item ++ " to the top of the " ++ flavor.place ++ ".",
        "Top always points to the most recent item.",
        "Pop: remove the top " ++ flavor.item ++ " first (reverse order).",
        "Great for undo, back navigation, parsing."],
      code :=
        "// Stack in TypeScript\nconst stack: string[] = [];\nstack.push(\"" ++
        flavor.item ++ " A\");\nstack.push(\"" ++ flavor.item ++
        " B\");\nconsole.log(stack.pop()); // \"" ++ flavor.item ++
        " B\"\nconsole.log(stack.pop()); // \"" ++ flavor.item ++ " A\"" }
  | .Queue =>
    { analogy :=
        "A Queue is like " ++ flavor.group ++ " lining up: first in is first served (FIFO).",
      steps := [
        "Enqueue: add to the back.",
        "Dequeue: remove from the front.",
        "Fair ordering, used in scheduling and BFS."],
      code :=
        "// Queue in TypeScript\nconst queue: string[] = [];\nqueue.push(\"first\");\n" ++
        "queue.push(\"second\");\nconsole.log(queue.shift()); // \"first\"" }
  | .HashMap =>
    { analogy :=
        "A Hash Map is like labeled bins for your " ++ flavor.place ++
        ": find a bin by label in O(1) average time.",
      steps := [
        "Hash function computes a bucket index from a key.",
        "Handle collisions (chaining or open addressing).",
        "O(1) average get/set; O(n) worst-case."],
      code :=
        "// Map in TypeScript\nconst m = new Map<string, number>();\n" ++
        "m.set(\"tempo\", 120);\nconsole.log(m.get(\"tempo\")); // 120" }
  | .BinarySearch =>
    { analogy :=
        "Binary Search is like guessing a BPM by halving ranges: check middle, then discard half.",
      steps := [
        "Requires a sorted array.",
        "Pick middle, compare target.",
        "Keep the half that can contain the target."],
      code :=
        "function bsearch(a: number[], x: number) \x7b\n  let l = 0, r = a.length - 1;\n" ++
        "  while (l <= r) \x7b\n    const mid = (l + r) >> 1;\n" ++
        "    if (a[mid] === x) return mid;\n" ++
        "    if (a[mid] < x) l = mid + 1; else r = mid - 1;\n  \x7d\n  return -1;\n\x7d" }
  | .Recursion =>
    { analogy :=
        "Recursion is like repeating a motif in a " ++ flavor.place ++
        ": each call tackles a smaller version until a base case.",
      steps := [
        "Define base case.",
        "Make progress toward base.",
        "Trust the function to solve smaller subproblems."],
      code :=
        "function factorial(n: number): number \x7b\n  if (n <= 1) return 1;        // base case\n" ++
        "  return n * factorial(n - 1); // recursive step\n\x7d" }
  | .Graph =>
    { analogy :=
        "A Graph connects " ++ flavor.group ++
        " with relationships (edges). Explore paths, cycles, and communities.",
      steps := [
        "Nodes (vertices) + edges (directed/undirected).",
        "DFS explores depth-first; BFS explores breadth-first.",
        "Used in maps, social networks, dependency graphs."],
      code :=
        "const g: Record<string, string[]> = \x7b\n  A: [\"B\",\"C\"], B:[\"D\"], C:[\"D\"], D:[]\n\x7d;\n" ++
        "// BFS from A\nfunction bfs(start: string) \x7b\n" ++
        "  const q = [start], seen = new Set([start]);\n  while (q.length) \x7b\n" ++
        "    const v = q.shift()!;\n" ++
        "    for (const n of g[v]) if (!seen.has(n)) \x7b seen.add(n); q.push(n); \x7d\n" ++
        "  \x7d\n  return seen;\n\x7d" }

/-- The demo-label base noun map inside `demoItems` in App.tsx. -/
def baseNoun : Interest → String
  | .Dance => "Move"
  | .Poetry => "Line"
  | .Cooking => "Step"
  | .Sports => "Play"
  | .Gaming => "Action"
  | .Music => "Bar"

/-- The `demoItems` memo of App.tsx: the generic 4-item list when no interest
is selected, otherwise the interest's base noun suffixed with A..D. -/
def demoItems : Option Interest → List String
  | none => ["Item A", "Item B", "Item C", "Item D"]
  | some i =>
    [baseNoun i ++ " A", baseNoun i ++ " B", baseNoun i ++ " C", baseNoun i ++ " D"]

/-- The component state of `App`: the two selections and the two demo
sequences (`useState` hooks `interest`, `concept`, `stack`, `queue`). -/
structure AppState where
  interest : Option Interest
  concept : Option Concept
  stack : List String
  queue : List String
  deriving DecidableEq, Repr

/-- The initial state of `App`: nothing selected, both sequences empty. -/
def init : AppState := ⟨none, none, [], []⟩

/-- The user events the UI exposes, one per `onClick` handler in App.tsx. -/
inductive Event where
  | selectInterest (i : Interest)
  | selectConcept (c : Concept)
  | push | pop | enqueue | dequeue | reset
  deriving DecidableEq, Repr

/-- The label an append picks: `demoItems[(len % demoItems.length)]` where
`len` is the current length of the sequence being appended to (App.tsx
Push and Enqueue handlers). -/
def appendLabel (interest : Option Interest) (len : Nat) : String :=
  (demoItems interest).getD (len % (demoItems interest).length) ""

/-- The transition function: each `onClick` handler of App.tsx as a pure
state update.  Selecting a concept is guarded by `disabled=\x7b!interest\x7d`;
Pop and Dequeue are `slice(0,-1)` and `slice(1)`, which on an empty array
return an empty array, so no emptiness guard is needed for the update
itself. -/
def step (s : AppState) : Event → AppState
  | .selectInterest i => { interest := some i, concept := none, stack := [], queue := [] }
  | .selectConcept c =>
    if s.interest.isSome then { s with concept := some c, stack := [], queue := [] } else s
  | .push => { s with stack := s.stack ++ [appendLabel s.interest s.stack.length] }
  | .pop => { s with stack := s.stack.dropLast }
  | .enqueue => { s with queue := s.queue ++ [appendLabel s.interest s.queue.length] }
  | .dequeue => { s with queue := s.queue.tail }
  | .reset => { s with stack := [], queue := [] }

/-- Run a list of events from a state, in order. -/
def run (s : AppState) (es : List Event) : AppState := es.foldl step s

/-- `n` consecutive Push events. -/
def pushN : Nat → AppState → AppState
  | 0, s => s
  | n + 1, s => pushN n (step s .push)

/-- `n` consecutive Enqueue events. -/
def enqueueN : Nat → AppState → AppState
  | 0, s => s
  | n + 1, s => enqueueN n (step s .enqueue)

/-- Substring containment, used to state "the analogy contains `bar`". -/
def hasSubstr (s pat : String) : Prop := ∃ p q, s = p ++ pat ++ q

/-! ## Helper lemmas -/

/-- A Push leaves the interest selection unchanged. -/
theorem step_push_interest (s : AppState) : (step s .push).interest = s.interest := rfl

/-- An Enqueue leaves the interest selection unchanged. -/
theorem step_enqueue_interest (s : AppState) : (step s .enqueue).interest = s.interest := rfl

/-- Stack contents after `n` consecutive Pushes: the labels appended are
indexed by the sequence length at the moment of each append. -/
theorem pushN_stack (n : Nat) : ∀ s : AppState,
    (pushN n s).stack =
      s.stack ++ (List.range n).map (fun k => appendLabel s.interest (s.stack.length + k)) := by
  induction n with
  | zero => intro s; simp [pushN]
  | succ n ih =>
    intro s
    rw [pushN, ih (step s .push), step_push_interest]
    have hfun : (fun k => appendLabel s.interest ((step s Event.push).stack.length + k))
        = (fun k => appendLabel s.interest (s.stack.length + (k + 1))) := by
      funext k
      have hlen : (step s Event.push).stack.length = s.stack.length + 1 := by
        simp [step]
      rw [hlen]
      congr 1
      omega
    rw [hfun]
    show (s.stack ++ [appendLabel s.interest s.stack.length]) ++ _ = _
    rw [List.range_succ_eq_map, List.map_cons, List.map_map, List.append_assoc,
      List.singleton_append]
    simp [Function.comp]

/-- Queue contents after `n` consecutive Enqueues: the labels appended are
indexed by the sequence length at the moment of each append. -/
theorem enqueueN_queue (n : Nat) : ∀ s : AppState,
    (enqueueN n s).queue =
      s.queue ++ (List.range n).map (fun k => appendLabel s.interest (s.queue.length + k)) := by
  induction n with
  | zero => intro s; simp [enqueueN]
  | succ n ih =>
    intro s
    rw [enqueueN, ih (step s .enqueue), step_enqueue_interest]
    have hfun : (fun k => appendLabel s.interest ((step s Event.enqueue).queue.length + k))
        = (fun k => appendLabel s.interest (s.queue.length + (k + 1))) := by
      funext k
      have hlen : (step s Event.enqueue).queue.length = s.queue.length + 1 := by
        simp [step]
      rw [hlen]
      congr 1
      omega
    rw [hfun]
    show (s.queue ++ [appendLabel s.interest s.queue.length]) ++ _ = _
    rw [List.range_succ_eq_map, List.map_cons, List.map_map, List.append_assoc,
      List.singleton_append]
    simp [Function.comp]

/-! ## Claim theorems -/

/-- Claim C1, counterexample: label selection is NOT driven by a per-sequence
append counter immune to removals.  Concrete run: select Music, select Stack,
then Push, Push, Pop, Push — three appends in total since the last reset
(k = 0, 1, 2).  Under the claim the third append (k = 2) would pick item
2 mod 4 of the template, i.e. "Bar C", giving ["Bar A", "Bar C"]; the code
picks by current length (1 after the Pop) and yields ["Bar A", "Bar B"]. -/
theorem label_counter_counterexample :
    (run init [.selectInterest .Music, .selectConcept .Stack,
        .push, .push, .pop, .push]).stack = ["Bar A", "Bar B"] ∧
    (demoItems (some Interest.Music)).getD (2 % 4) "" = "Bar C" ∧
    (["Bar A", "Bar B"] : List String) ≠ ["Bar A", "Bar C"] := by
  refine ⟨by decide, by decide, by decide⟩

/-- Claim C1, amended: label selection is driven by the sequence's current
length, not by a persistent append counter.  Starting from any state, the
k-th of `n` consecutive appends (0-indexed) appends
`template[(L + k) mod 4]` where `L` is the length when the run of appends
starts — so from an empty sequence consecutive appends cycle `k mod 4`,
while an interleaved removal decreases the length and shifts every later
selection back instead of continuing the cycle. -/
theorem label_cycle_by_length (s : AppState) :
    (∀ n, (pushN n s).stack =
      s.stack ++ (List.range n).map (fun k => appendLabel s.interest (s.stack.length + k))) ∧
    (∀ n, (enqueueN n s).queue =
      s.queue ++ (List.range n).map (fun k => appendLabel s.interest (s.queue.length + k))) :=
  ⟨fun n => pushN_stack n s, fun n => enqueueN_queue n s⟩

/-- Claim C2: `generateExplanation` is total over all 36 (Interest, Concept)
pairs — every pair yields a non-empty analogy, at least 2 steps, and a
non-empty code snippet. -/
theorem generateExplanation_total (i : Interest) (c : Concept) :
    (generateExplanation i c).analogy ≠ "" ∧
    2 ≤ (generateExplanation i c).steps.length ∧
    (generateExplanation i c).code ≠ "" := by
  cases i <;> cases c <;> exact ⟨by decide, by decide, by decide⟩

/-- Claim C3: an append adds exactly one element at the end of its sequence
(length + 1); on a non-empty sequence, Pop removes exactly the last element
and Dequeue removes exactly the first element, each shrinking the length
by 1. -/
theorem append_remove_correct (s : AppState) :
    ((step s .push).stack = s.stack ++ [appendLabel s.interest s.stack.length] ∧
      (step s .push).stack.length = s.stack.length + 1) ∧
    ((step s .enqueue).queue = s.queue ++ [appendLabel s.interest s.queue.length] ∧
      (step s .enqueue).queue.length = s.queue.length + 1) ∧
    (∀ h : s.stack ≠ [],
      (step s .pop).stack ++ [s.stack.getLast h] = s.stack ∧
      (step s .pop).stack.length + 1 = s.stack.length) ∧
    (∀ h : s.queue ≠ [],
      s.queue.head h :: (step s .dequeue).queue = s.queue ∧
      (step s .dequeue).queue.length + 1 = s.queue.length) := by
  refine ⟨⟨rfl, by simp [step]⟩, ⟨rfl, by simp [step]⟩, ?_, ?_⟩
  · intro h
    have h1 : (step s .pop).stack ++ [s.stack.getLast h] = s.stack :=
      List.dropLast_append_getLast h
    refine ⟨h1, ?_⟩
    conv_rhs => rw [← h1]
    simp
  · intro h
    have h1 : s.queue.head h :: (step s .dequeue).queue = s.queue :=
      List.head_cons_tail s.queue h
    refine ⟨h1, ?_⟩
    conv_rhs => rw [← h1]
    simp

/-- Claim C3, witness: the removal parts of `append_remove_correct`
instantiated at a concrete non-empty state. -/
theorem append_remove_correct_witness :
    ((["Bar A"] : List String) ≠ [] ∧
      (step (AppState.mk (some Interest.Music) (some Concept.Stack)
          ["Bar A"] ["Play A"]) Event.pop).stack
        ++ [(["Bar A"] : List String).getLast (by decide)] = ["Bar A"]) ∧
    ((["Play A"] : List String) ≠ [] ∧
      (["Play A"] : List String).head (by decide) ::
        (step (AppState.mk (some Interest.Music) (some Concept.Stack)
          ["Bar A"] ["Play A"]) Event.dequeue).queue = ["Play A"]) := by
  refine ⟨⟨by decide, ?_⟩, ⟨by decide, ?_⟩⟩
  · exact ((append_remove_correct (AppState.mk (some Interest.Music)
      (some Concept.Stack) ["Bar A"] ["Play A"])).2.2.1 (by decide)).1
  · exact ((append_remove_correct (AppState.mk (some Interest.Music)
      (some Concept.Stack) ["Bar A"] ["Play A"])).2.2.2 (by decide)).1

/-- Claim C4: Pop on an empty stack and Dequeue on an empty queue are
no-ops — the whole state is unchanged, and no error is modelled because
`slice` on an empty array cannot throw. -/
theorem remove_on_empty_noop (s : AppState) :
    (s.stack = [] → step s .pop = s) ∧ (s.queue = [] → step s .dequeue = s) := by
  obtain ⟨i, c, st, q⟩ := s
  constructor <;> intro h <;> subst h <;> rfl

/-- Claim C4, witness: `remove_on_empty_noop` at the initial state, whose
sequences are empty. -/
theorem remove_on_empty_noop_witness :
    init.stack = [] ∧ step init .pop = init ∧
    init.queue = [] ∧ step init .dequeue = init :=
  ⟨rfl, (remove_on_empty_noop init).1 rfl, rfl, (remove_on_empty_noop init).2 rfl⟩

/-- Claim C5: from every state, selecting an Interest resets the Concept to
none and empties both sequences, and selecting a Concept while an Interest
is set empties both sequences. -/
theorem select_clears (s : AppState) :
    (∀ i : Interest,
      (step s (.selectInterest i)).interest = some i ∧
      (step s (.selectInterest i)).concept = none ∧
      (step s (.selectInterest i)).stack = [] ∧
      (step s (.selectInterest i)).queue = []) ∧
    (∀ c : Concept, s.interest.isSome = true →
      (step s (.selectConcept c)).stack = [] ∧
      (step s (.selectConcept c)).queue = []) := by
  refine ⟨fun i => ⟨rfl, rfl, rfl, rfl⟩, fun c h => ?_⟩
  simp [step, h]

/-- Claim C5, witness: `select_clears` at a concrete state with an Interest
set and non-empty sequences. -/
theorem select_clears_witness :
    (AppState.mk (some Interest.Dance) none ["Move A"] ["Move B"]).interest.isSome = true ∧
    (step (AppState.mk (some Interest.Dance) none ["Move A"] ["Move B"])
      (.selectConcept .Queue)).stack = [] ∧
    (step (AppState.mk (some Interest.Dance) none ["Move A"] ["Move B"])
      (.selectConcept .Queue)).queue = [] := by
  refine ⟨rfl, ?_, ?_⟩
  · exact ((select_clears (AppState.mk (some Interest.Dance) none
      ["Move A"] ["Move B"])).2 .Queue rfl).1
  · exact ((select_clears (AppState.mk (some Interest.Dance) none
      ["Move A"] ["Move B"])).2 .Queue rfl).2

/-- Claim C6: Reset empties both sequences from every prior state. -/
theorem reset_empties (s : AppState) :
    (step s .reset).stack = [] ∧ (step s .reset).queue = [] := ⟨rfl, rfl⟩

/-- Claim C7: `generateExplanation` is a pure deterministic function — two
invocations on equal inputs produce identical Explanation records; the
embedding has no other input, mirroring the source function, which reads
only its two arguments and local constants. -/
theorem generateExplanation_deterministic (i i2 : Interest) (c c2 : Concept)
    (hi : i = i2) (hc : c = c2) :
    generateExplanation i c = generateExplanation i2 c2 := by
  cases hi; cases hc; rfl

/-- Claim C7, witness: `generateExplanation_deterministic` at (Music, Stack)
against itself. -/
theorem generateExplanation_deterministic_witness :
    Interest.Music = Interest.Music ∧ Concept.Stack = Concept.Stack ∧
    generateExplanation .Music .Stack = generateExplanation .Music .Stack :=
  ⟨rfl, rfl, generateExplanation_deterministic .Music .Music .Stack .Stack rfl rfl⟩

/-- Claim C8: end-to-end scenario — with Interest Music, Concept Stack, the
analogy contains "bar"; five Pushes from the freshly cleared stack give
[Bar A, Bar B, Bar C, Bar D, Bar A], and one Pop then gives
[Bar A, Bar B, Bar C, Bar D]. -/
theorem scenario_music_stack :
    hasSubstr (generateExplanation .Music .Stack).analogy "bar" ∧
    (run init [.selectInterest .Music, .selectConcept .Stack,
        .push, .push, .push, .push, .push]).stack =
      ["Bar A", "Bar B", "Bar C", "Bar D", "Bar A"] ∧
    (run init [.selectInterest .Music, .selectConcept .Stack,
        .push, .push, .push, .push, .push, .pop]).stack =
      ["Bar A", "Bar B", "Bar C", "Bar D"] := by
  refine ⟨⟨"A Stack is like building a setlist: you add each ",
    " on top. When you undo, the last bar you added comes off first (LIFO).",
    by decide⟩, by decide, by decide⟩

/-- Claim C9: with no Interest selected the demo template is the generic
list Item A..D; with an Interest selected it is the interest's base noun
suffixed with A..D. -/
theorem demoItems_spec :
    demoItems none = ["Item A", "Item B", "Item C", "Item D"] ∧
    ∀ i : Interest, demoItems (some i) =
      [baseNoun i ++ " A", baseNoun i ++ " B", baseNoun i ++ " C", baseNoun i ++ " D"] := by
  refine ⟨rfl, fun i => ?_⟩
  cases i <;> decide

/-- Claim C10: frame property — Push and Pop leave the queue unchanged,
Enqueue and Dequeue leave the stack unchanged, and all five demo operations
leave the Interest and Concept selections unchanged. -/
theorem frame_property (s : AppState) :
    (step s .push).queue = s.queue ∧ (step s .pop).queue = s.queue ∧
    (step s .enqueue).stack = s.stack ∧ (step s .dequeue).stack = s.stack ∧
    (step s .push).interest = s.interest ∧ (step s .push).concept = s.concept ∧
    (step s .pop).interest = s.interest ∧ (step s .pop).concept = s.concept ∧
    (step s .enqueue).interest = s.interest ∧ (step s .enqueue).concept = s.concept ∧
    (step s .dequeue).interest = s.interest ∧ (step s .dequeue).concept = s.concept ∧
    (step s .reset).interest = s.interest ∧ (step s .reset).concept = s.concept :=
  ⟨rfl, rfl, rfl, rfl, rfl, rfl, rfl, rfl, rfl, rfl, rfl, rfl, rfl, rfl⟩

end PassionDSA
